import Mathlib

/-!
Verification of the streaming LLM client, Markdown renderer, session store and
configuration manager of the ZoteroPatch AI Reader plugin.

The TypeScript sources are shallowly embedded: strings are `List Char`
(`String` at the API boundary), JavaScript `number` timestamps are `Nat`,
JavaScript `number` temperatures are `Rat`, fallible operations return
`Except`/`Option`, and the single-threaded event-loop behaviour of the
streaming transport is modelled as a fold over an explicit event list.
External host primitives (the WHATWG `URL` parser behind `isValidUrl`, and
`JSON.parse` plus the `choices[0].delta.content` path behind the SSE decoder)
are parameters of the embedding.
-/

set_option maxRecDepth 4096

/-- Backquote character, written numerically. -/
def bq : Char := Char.ofNat 96

/-- Apostrophe character, written numerically. -/
def apos : Char := Char.ofNat 39

/-- Double-quote character, written numerically. -/
def dq : Char := Char.ofNat 34

/-- Characters matched by the JavaScript whitespace class (the ASCII part
plus NBSP; the remaining exotic Unicode space code points never occur in
the inputs treated here). -/
def jsWs (c : Char) : Bool :=
  c = ' ' || c = '\t' || c = '\n' || c = Char.ofNat 11 || c = Char.ofNat 12 ||
  c = Char.ofNat 13 || c = Char.ofNat 160

/-- JavaScript `String.prototype.trim`: drop whitespace from both ends. -/
def jsTrim (l : List Char) : List Char :=
  ((l.dropWhile jsWs).reverse.dropWhile jsWs).reverse

/-- JavaScript `String.prototype.split` with a single-character separator. -/
def splitOnCh (sep : Char) : List Char → List (List Char)
  | [] => [[]]
  | c :: r =>
    if c = sep then [] :: splitOnCh sep r
    else
      match splitOnCh sep r with
      | [] => [[c]]
      | a :: as => (c :: a) :: as

/-- Source `Array.prototype.join` with the newline separator. -/
def joinNl : List (List Char) → List Char
  | [] => []
  | [x] => x
  | x :: xs => x ++ '\n' :: joinNl xs

/-- Start index chosen by JavaScript `Array.prototype.slice`/`String.prototype.slice`
for a (possibly negative) argument. -/
def jsSliceStart (len : Nat) (k : Int) : Nat :=
  if k < 0 then len - min len k.natAbs else min k.toNat len

/-- JavaScript one-argument `slice` on lists. -/
def jsSlice (l : List α) (k : Int) : List α :=
  l.drop (jsSliceStart l.length k)

/-! ## Session store (`SessionManager.ts`) -/

/-- The `role` field of a chat message: `user | assistant | system`. -/
inductive ChatRole
  | user
  | assistant
  | system
  deriving DecidableEq, Repr

/-- One conversation turn (`ChatMessage`). -/
structure ChatMessage where
  id : String
  role : ChatRole
  content : String
  timestamp : Nat
  deriving DecidableEq, Repr

/-- Per-document conversation state (`SessionContext`); the opaque
`readerInstance` handle carries no behaviour and is omitted. -/
structure SessionContext where
  itemID : Nat
  messages : List ChatMessage
  summary : Option String := none
  keyPoints : Option (List String) := none
  lastUpdated : Nat
  deriving DecidableEq, Repr

/-- The `Map<number, SessionContext>` of the session manager, as an
insertion-ordered association list. -/
abbrev Store := List (Nat × SessionContext)

/-- Source `Map.prototype.get`. -/
def mapGet (st : Store) (k : Nat) : Option SessionContext :=
  (st.find? (fun p => p.1 == k)).map (·.2)

/-- Source `Map.prototype.set`: overwrite in place if the key exists, else append. -/
def mapSet (st : Store) (k : Nat) (v : SessionContext) : Store :=
  if st.any (fun p => p.1 == k) then
    st.map (fun p => if p.1 == k then (k, v) else p)
  else st ++ [(k, v)]

/-- Source `Map.prototype.delete`. -/
def mapDel (st : Store) (k : Nat) : Store :=
  st.filter (fun p => p.1 != k)

/-- Source `MAX_MESSAGES_PER_SESSION`. -/
def MAX_MESSAGES_PER_SESSION : Nat := 100

/-- Source `SESSION_TIMEOUT_MS` (one hour). -/
def SESSION_TIMEOUT_MS : Nat := 3600000

/-- Source `SessionManager.createSession`: insert a fresh context, overwriting any
previous entry; `now` stands for `Date.now()`. -/
def createSession (st : Store) (ident now : Nat) : Store :=
  mapSet st ident { itemID := ident, messages := [], lastUpdated := now }

/-- Source `SessionManager.getSession`: lazy expiry — if more than the timeout has
elapsed since `lastUpdated`, the session is removed and not-found is
returned, together with the (possibly changed) store. -/
def getSession (st : Store) (ident now : Nat) : Option SessionContext × Store :=
  match mapGet st ident with
  | some s =>
    if SESSION_TIMEOUT_MS < now - s.lastUpdated then (none, mapDel st ident)
    else (some s, st)
  | none => (none, st)

/-- The message-cap enforcement inside `SessionManager.addMessage`: after the
push, if the list exceeds the maximum, keep `filter(role === 'system')`
concatenated with `slice(-MAX_MESSAGES_PER_SESSION + systemCount)`. -/
def enforceCap (ms : List ChatMessage) : List ChatMessage :=
  if MAX_MESSAGES_PER_SESSION < ms.length then
    let sys := ms.filter (fun m => m.role == ChatRole.system)
    let recent := jsSlice ms ((sys.length : Int) - (MAX_MESSAGES_PER_SESSION : Int))
    sys ++ recent
  else ms

/-- Source `SessionManager.addMessage`: look up through `getSession` (which may
evict an expired session), warn-and-return if absent, else push the message,
bump `lastUpdated`, and enforce the cap. -/
def addMessage (st : Store) (ident : Nat) (msg : ChatMessage) (now : Nat) : Store :=
  let r := getSession st ident now
  match r.1 with
  | none => r.2
  | some s =>
    mapSet r.2 ident
      { s with messages := enforceCap (s.messages ++ [msg]), lastUpdated := now }

/-- Source `SessionManager.updateSummary`. -/
def updateSummary (st : Store) (ident : Nat) (v : String) (now : Nat) : Store :=
  let r := getSession st ident now
  match r.1 with
  | none => r.2
  | some s => mapSet r.2 ident { s with summary := some v, lastUpdated := now }

/-- Source `SessionManager.updateKeyPoints`. -/
def updateKeyPoints (st : Store) (ident : Nat) (v : List String) (now : Nat) : Store :=
  let r := getSession st ident now
  match r.1 with
  | none => r.2
  | some s => mapSet r.2 ident { s with keyPoints := some v, lastUpdated := now }

/-- Looking a key up after deleting it finds nothing. -/
theorem mapGet_mapDel (st : Store) (k : Nat) : mapGet (mapDel st k) k = none := by
  induction st with
  | nil => rfl
  | cons p r ih =>
    simp only [mapDel, List.filter_cons] at ih ⊢
    by_cases h : p.1 = k
    · simp only [h, bne_self_eq_false, Bool.false_eq_true, if_false]
      exact ih
    · have hb : (p.1 != k) = true := by simp [h]
      rw [hb, if_pos rfl]
      have hk : (p.1 == k) = false := by simp [h]
      simp only [mapGet, List.find?_cons, hk]
      exact ih

/-- A 101-message scenario for the cap: 100 `system` messages followed by
one `user` message, all at time 0 in session 1. -/
def capSysMsg : ChatMessage := { id := "s", role := ChatRole.system, content := "", timestamp := 0 }

/-- The user message appended last in the cap scenario. -/
def capUserMsg : ChatMessage := { id := "u", role := ChatRole.user, content := "", timestamp := 0 }

/-- The store obtained by creating session 1 and appending 100 system
messages and then one user message through `addMessage`. -/
def capStore : Store :=
  addMessage
    ((List.range 100).foldl (fun st _ => addMessage st 1 capSysMsg 0) (createSession [] 1 0))
    1 capUserMsg 0

/-- C3. The session cap invariant fails on the code: appending 100
`system`-role messages and then a 101st message leaves
`session.messages.length = 201`, exceeding the cap of 100 — the trim step
concatenates every system message with a slice that still contains all of
them. -/
theorem C3_cap_violation :
    (mapGet capStore 1).map (fun s => s.messages.length) = some 201 ∧
    MAX_MESSAGES_PER_SESSION < 201 := by
  constructor
  · decide
  · decide

/-- C8. `getSession` with lazy expiry: if a stored session's `lastUpdated`
is more than `SESSION_TIMEOUT_MS` in the past, the lookup evicts it and
returns not-found, and any subsequent lookup on the evicted store also
returns not-found; a lookup before expiry returns the stored context
unchanged. -/
theorem C8_getSession_expiry (st : Store) (ident now now' : Nat) (s : SessionContext)
    (hs : mapGet st ident = some s) :
    (SESSION_TIMEOUT_MS < now - s.lastUpdated →
      getSession st ident now = (none, mapDel st ident) ∧
      getSession (mapDel st ident) ident now' = (none, mapDel st ident)) ∧
    (¬ SESSION_TIMEOUT_MS < now - s.lastUpdated →
      getSession st ident now = (some s, st)) := by
  constructor
  · intro h
    constructor
    · simp only [getSession, hs]
      rw [if_pos h]
    · simp only [getSession, mapGet_mapDel]
  · intro h
    simp only [getSession, hs]
    rw [if_neg h]

/-- A concrete store with one session for item 7 created at time 0. -/
def expiryStore : Store := createSession [] 7 0

/-- The session stored in `expiryStore`. -/
def expirySess : SessionContext := { itemID := 7, messages := [], lastUpdated := 0 }

/-- Witness for C8 at a concrete store and clock. -/
theorem C8_getSession_expiry_witness :
    mapGet expiryStore 7 = some expirySess ∧
    SESSION_TIMEOUT_MS < 3600001 - expirySess.lastUpdated ∧
    getSession expiryStore 7 3600001 = (none, mapDel expiryStore 7) ∧
    getSession (mapDel expiryStore 7) 7 9999999 = (none, mapDel expiryStore 7) := by
  refine ⟨by decide, by decide, ?_, ?_⟩
  · exact ((C8_getSession_expiry expiryStore 7 3600001 9999999 expirySess (by decide)).1
      (by decide)).1
  · exact ((C8_getSession_expiry expiryStore 7 3600001 9999999 expirySess (by decide)).1
      (by decide)).2

/-- C10. `addMessage`, `updateSummary` and `updateKeyPoints` all look their
session up through the expiry-checking `getSession`: on a session whose
`lastUpdated` is more than the timeout in the past they leave no message,
summary or key-point change and return the store with the expired session
evicted. -/
theorem C10_mutators_evict (st : Store) (ident now : Nat) (s : SessionContext)
    (msg : ChatMessage) (sm : String) (kps : List String)
    (hs : mapGet st ident = some s)
    (hexp : SESSION_TIMEOUT_MS < now - s.lastUpdated) :
    addMessage st ident msg now = mapDel st ident ∧
    updateSummary st ident sm now = mapDel st ident ∧
    updateKeyPoints st ident kps now = mapDel st ident := by
  have hg : getSession st ident now = (none, mapDel st ident) := by
    simp only [getSession, hs]
    rw [if_pos hexp]
  refine ⟨?_, ?_, ?_⟩ <;> simp [addMessage, updateSummary, updateKeyPoints, hg]

/-- Witness for C10 at the concrete expired store. -/
theorem C10_mutators_evict_witness :
    addMessage expiryStore 7 capUserMsg 3600001 = mapDel expiryStore 7 ∧
    updateSummary expiryStore 7 "sum" 3600001 = mapDel expiryStore 7 ∧
    updateKeyPoints expiryStore 7 ["k"] 3600001 = mapDel expiryStore 7 :=
  C10_mutators_evict expiryStore 7 3600001 expirySess capUserMsg "sum" ["k"]
    (by decide) (by decide)

/-! ## Non-streaming request retry (`LLMClient.sendRequestWithRetry` / `chat`) -/

/-- Source `MAX_RETRIES` of the LLM client. -/
def MAX_RETRIES : Nat := 3

/-- Source `RETRY_DELAY_MS` of the LLM client. -/
def RETRY_DELAY_MS : Nat := 1000

/-- Source `LLMClient.sendRequestWithRetry`: try `send` at the current retry depth;
on failure, while `retries < MAX_RETRIES`, wait `RETRY_DELAY_MS * (retries + 1)`
and recurse with `retries + 1`.  The result records the number of attempts
performed, the list of delays waited, and the final outcome. -/
def sendRequestWithRetry (send : Nat → Except String α) (retries : Nat) :
    Nat × List Nat × Except String α :=
  match send retries with
  | .ok v => (1, [], .ok v)
  | .error e =>
    if h : retries < MAX_RETRIES then
      let r := sendRequestWithRetry send (retries + 1)
      (r.1 + 1, RETRY_DELAY_MS * (retries + 1) :: r.2.1, r.2.2)
    else (1, [], .error e)
termination_by MAX_RETRIES - retries
decreasing_by omega

/-- Source `LLMClient.chat`: run the retry loop from depth 0 and wrap a final
failure in the `LLM request failed:` message. -/
def chat (send : Nat → Except String α) : Nat × List Nat × Except String α :=
  let r := sendRequestWithRetry send 0
  (r.1, r.2.1,
    match r.2.2 with
    | .ok v => .ok v
    | .error e => .error ("LLM request failed: " ++ e))

/-- One unfolding step of the retry loop on a failing attempt below the bound. -/
theorem sendRequestWithRetry_fail_step (send : Nat → Except String Unit) (k : Nat)
    (e : String) (hs : send k = .error e) (h : k < MAX_RETRIES) :
    sendRequestWithRetry send k =
      ((sendRequestWithRetry send (k + 1)).1 + 1,
       RETRY_DELAY_MS * (k + 1) :: (sendRequestWithRetry send (k + 1)).2.1,
       (sendRequestWithRetry send (k + 1)).2.2) := by
  rw [sendRequestWithRetry, hs]
  simp [h]

/-- Final unfolding step of the retry loop at the retry bound. -/
theorem sendRequestWithRetry_fail_last (send : Nat → Except String Unit)
    (e : String) (hs : send MAX_RETRIES = .error e) :
    sendRequestWithRetry send MAX_RETRIES = (1, [], .error e) := by
  rw [sendRequestWithRetry, hs]
  simp

/-- The retry loop on an always-failing transport, fully evaluated. -/
theorem sendRequestWithRetry_allFail (errs : Nat → String) :
    sendRequestWithRetry (fun n => (Except.error (errs n) : Except String Unit)) 0 =
      (4, [1000, 2000, 3000], Except.error (errs 3)) := by
  have h3 : sendRequestWithRetry (fun n => (Except.error (errs n) : Except String Unit)) 3 =
      (1, [], .error (errs 3)) :=
    sendRequestWithRetry_fail_last _ _ rfl
  have h2 := sendRequestWithRetry_fail_step
    (fun n => (Except.error (errs n) : Except String Unit)) 2 (errs 2) rfl (by decide)
  have h1 := sendRequestWithRetry_fail_step
    (fun n => (Except.error (errs n) : Except String Unit)) 1 (errs 1) rfl (by decide)
  have h0 := sendRequestWithRetry_fail_step
    (fun n => (Except.error (errs n) : Except String Unit)) 0 (errs 0) rfl (by decide)
  rw [h0, h1, h2, h3]
  norm_num [RETRY_DELAY_MS]

/-- C2 counterexample. With a transport that fails on every attempt, `chat`
does not perform 3 attempts with delays 1000 ms and 2000 ms: evaluating the
code at the concrete always-failing transport gives 4 attempts and delays
1000, 2000 and 3000 ms. -/
theorem C2_retry_counterexample :
    ¬ ((chat (fun _ => (Except.error "Network error" : Except String Unit))).1 = 3 ∧
       (chat (fun _ => (Except.error "Network error" : Except String Unit))).2.1 =
         [1000, 2000]) := by
  have h := sendRequestWithRetry_allFail (fun _ => "Network error")
  simp [chat, h]

/-- C2 amended. For every always-failing transport, `chat` performs exactly
4 underlying attempts (1 initial + 3 retries, since `retries < MAX_RETRIES`
admits retry depths 1, 2 and 3), with delays 1000 ms, 2000 ms and 3000 ms
before the retries, and then rejects with the wrapped failure of the last
attempt. -/
theorem C2_retry_amended (errs : Nat → String) :
    chat (fun n => (Except.error (errs n) : Except String Unit)) =
      (4, [1000, 2000, 3000],
       Except.error ("LLM request failed: " ++ errs 3)) := by
  have h := sendRequestWithRetry_allFail errs
  simp [chat, h]

/-! ## Streaming transport (`LLMClient.fetchWithZoteroStreamSimple` / `streamChat`) -/

/-- One SSE line of the wire format, decoded as in the `onprogress` handler:
lines bearing the literal prefix `data: ` have it stripped and trimmed, the
`[DONE]` sentinel is skipped, and the `extract` parameter — standing for
`JSON.parse` followed by the `choices?.[0]?.delta?.content` path, `none` on
malformed JSON or a missing field — yields the delta, which is forwarded
only when truthy (non-empty). -/
def processLine (extract : List Char → Option (List Char)) (line : List Char) :
    Option (List Char) :=
  if ("data: ".data).isPrefixOf line then
    let d := jsTrim (line.drop 6)
    if d = "[DONE]".data then none
    else
      match extract d with
      | some c => if c = [] then none else some c
      | none => none
  else none

/-- The deltas extracted from one newly appended suffix of the response body
(the `if (newData)` guard, the split into lines, and the per-line decode). -/
def deltasOfChunk (extract : List Char → Option (List Char)) (newData : List Char) :
    List (List Char) :=
  if newData = [] then []
  else (splitOnCh '\n' newData).filterMap (processLine extract)

/-- The incremental-decode state of `fetchWithZoteroStreamSimple`:
`lastProcessedLength` and the accumulated `fullText`. -/
structure StreamSt where
  lastLen : Nat
  fullText : List Char
  deriving DecidableEq, Repr

/-- The `xhr.onprogress` handler: slice the response body from
`lastProcessedLength`, advance the marker, and decode the new suffix. -/
def onProgress (extract : List Char → Option (List Char)) (responseText : List Char)
    (st : StreamSt) : StreamSt × List (List Char) :=
  let newData := responseText.drop st.lastLen
  let ds := deltasOfChunk extract newData
  ({ lastLen := responseText.length, fullText := st.fullText ++ ds.flatten }, ds)

/-- Events delivered to the streaming `XMLHttpRequest`: a progress
notification appending data to the response body, a final load with a
status, a network error, a timeout, or the abort signal firing. -/
inductive XhrEvt
  | progress (a : List Char)
  | load (status : Nat)
  | netErr
  | timeoutE
  | abortSig
  deriving DecidableEq, Repr

/-- Calls made on the transport's callback set (`onChunk`, `onComplete`,
`onError` of the options record). -/
inductive SseCb
  | chunk (s : List Char)
  | complete (s : List Char)
  | error (e : String)
  deriving DecidableEq, Repr

/-- Settlement of the transport promise. -/
inductive TRes
  | resolved
  | rejected (e : String)
  | rejectedAbort
  | pending
  deriving DecidableEq, Repr

/-- Source `fetchWithZoteroStreamSimple`, run over an event list.  Progress events
feed the incremental decoder and emit `onChunk` calls in order; the first
terminal event settles the promise — a 2xx load calls `onComplete` with the
accumulated text and resolves, a non-2xx load / network error / timeout
calls `onError` and rejects, and the abort signal rejects with `AbortError`
after `xhr.abort()`, so no event after a terminal one is delivered. -/
def transportGo (extract : List Char → Option (List Char)) (st : StreamSt)
    (total : List Char) : List XhrEvt → List SseCb × TRes
  | [] => ([], .pending)
  | .progress a :: rest =>
    let pr := onProgress extract (total ++ a) st
    let tail := transportGo extract pr.1 (total ++ a) rest
    (pr.2.map SseCb.chunk ++ tail.1, tail.2)
  | .load s :: _ =>
    if 200 ≤ s ∧ s < 300 then ([SseCb.complete st.fullText], .resolved)
    else ([SseCb.error ("HTTP " ++ toString s)], .rejected ("HTTP " ++ toString s))
  | .netErr :: _ => ([SseCb.error "Network error"], .rejected "Network error")
  | .timeoutE :: _ => ([SseCb.error "Request timeout"], .rejected "Request timeout")
  | .abortSig :: _ => ([], .rejectedAbort)

/-- The deltas of a whole sequence of appended chunks, in arrival order. -/
def allDeltas (extract : List Char → Option (List Char)) (chunks : List (List Char)) :
    List (List Char) :=
  chunks.flatMap (deltasOfChunk extract)

/-- Dropping the length of a left factor from an append recovers the right
factor — the correctness of the `lastProcessedLength` bookkeeping. -/
theorem drop_len_append (l₁ l₂ : List Char) : (l₁ ++ l₂).drop l₁.length = l₂ := by
  induction l₁ with
  | nil => rfl
  | cons c r ih => simp [ih]

/-- When `lastProcessedLength` equals the length of the already-received
body, a progress notification decodes exactly the appended chunk. -/
theorem onProgress_append (extract : List Char → Option (List Char))
    (total a F : List Char) :
    onProgress extract (total ++ a) { lastLen := total.length, fullText := F } =
      ({ lastLen := (total ++ a).length,
         fullText := F ++ (deltasOfChunk extract a).flatten },
       deltasOfChunk extract a) := by
  simp only [onProgress, drop_len_append]

/-- Running the transport over a block of progress events emits exactly the
deltas of the appended chunks, in order, then continues on the remaining
events with the accumulator advanced accordingly. -/
theorem transportGo_progress (extract : List Char → Option (List Char)) :
    ∀ (chunks : List (List Char)) (total F : List Char) (evts : List XhrEvt),
    transportGo extract { lastLen := total.length, fullText := F } total
        (chunks.map XhrEvt.progress ++ evts) =
      ((allDeltas extract chunks).map SseCb.chunk ++
        (transportGo extract
          { lastLen := (total ++ chunks.flatten).length,
            fullText := F ++ (allDeltas extract chunks).flatten }
          (total ++ chunks.flatten) evts).1,
       (transportGo extract
          { lastLen := (total ++ chunks.flatten).length,
            fullText := F ++ (allDeltas extract chunks).flatten }
          (total ++ chunks.flatten) evts).2) := by
  intro chunks
  induction chunks with
  | nil =>
    intro total F evts
    simp [allDeltas]
  | cons a cs ih =>
    intro total F evts
    simp only [List.map_cons, List.cons_append, transportGo, onProgress_append,
      List.append_eq]
    rw [ih (total ++ a) (F ++ (deltasOfChunk extract a).flatten) evts]
    simp [allDeltas, List.append_assoc]

/-- C1. For a streaming call whose transport completes successfully (2xx
load after the progress events), the decoder processes exactly the newly
appended suffix at each progress event, the deltas extracted by the
line-wise decode (`data: ` stripping, `[DONE]` and malformed-JSON skipping
are inside `processLine`) are forwarded as `onChunk` calls strictly in
arrival order, and `onComplete` is called exactly once, after the last
chunk, with the concatenation of all forwarded deltas. -/
theorem C1_stream_decode (extract : List Char → Option (List Char))
    (chunks : List (List Char)) (status : Nat)
    (h : 200 ≤ status ∧ status < 300) :
    transportGo extract { lastLen := 0, fullText := [] } []
        (chunks.map XhrEvt.progress ++ [XhrEvt.load status]) =
      ((allDeltas extract chunks).map SseCb.chunk ++
        [SseCb.complete (allDeltas extract chunks).flatten],
       TRes.resolved) := by
  have h0 : ({ lastLen := 0, fullText := [] } : StreamSt) =
      { lastLen := ([] : List Char).length, fullText := [] } := rfl
  rw [h0, transportGo_progress extract chunks [] [] [XhrEvt.load status]]
  simp [transportGo, h]

/-- A concrete stand-in for `JSON.parse` plus the delta path, mapping the
payload `J1` to `Hel`, the payload `J2` to `lo`, and everything else
(malformed JSON) to `none`. -/
def sampleExtract (d : List Char) : Option (List Char) :=
  if d = "J1".data then some ("Hel".data)
  else if d = "J2".data then some ("lo".data)
  else none

/-- Appended chunks for the witness: a clean data line, then a chunk with a
malformed line, the `[DONE]` sentinel and a second data line. -/
def sampleChunks : List (List Char) :=
  ["data: J1\n".data, "oops\ndata: [DONE]\ndata: J2\n".data]

/-- Witness for C1 at a concrete extractor, chunk sequence and status. -/
theorem C1_stream_decode_witness :
    (200 ≤ 200 ∧ 200 < 300) ∧
    transportGo sampleExtract { lastLen := 0, fullText := [] } []
        (sampleChunks.map XhrEvt.progress ++ [XhrEvt.load 200]) =
      ([SseCb.chunk ("Hel".data), SseCb.chunk ("lo".data),
        SseCb.complete ("Hello".data)], TRes.resolved) := by
  refine ⟨by decide, ?_⟩
  rw [C1_stream_decode sampleExtract sampleChunks 200 (by decide)]
  decide

/-! ## Cancellation (`LLMClient.streamChat` / `abortStream` / `isStreaming`) -/

/-- Calls observed by the caller-supplied `StreamCallbacks`. -/
inductive UserCb
  | start
  | chunk (s : List Char)
  | complete (s : List Char)
  | errCb (e : String)
  deriving DecidableEq, Repr

/-- How the `streamChat` promise ends. -/
inductive Outcome
  | ok
  | raised (e : String)
  | stillPending
  deriving DecidableEq, Repr

/-- The options record of the transport forwards each callback directly to
the caller's callback set. -/
def toUserCb : SseCb → UserCb
  | .chunk s => .chunk s
  | .complete s => .complete s
  | .error e => .errCb e

/-- Source `LLMClient.streamChat`, run over a transport event list: `onStart` is
fired first, the transport's callbacks are forwarded, and the surrounding
`try`/`catch` treats an `AbortError` rejection as a clean silent stop
(no further callback, the promise resolves) while any other rejection is
reported to `onError` a second time and rethrown. -/
def streamChatRun (extract : List Char → Option (List Char)) (evts : List XhrEvt) :
    List UserCb × Outcome :=
  let t := transportGo extract { lastLen := 0, fullText := [] } [] evts
  let base := UserCb.start :: t.1.map toUserCb
  match t.2 with
  | .resolved => (base, .ok)
  | .rejectedAbort => (base, .ok)
  | .rejected e => (base ++ [UserCb.errCb e], .raised e)
  | .pending => (base, .stillPending)

/-- Source `LLMClient.abortStream` acting on the `abortController` field (`none`
when idle, `some` handle while a stream is in flight): abort the held
controller — the returned flag records whether a signal was actually
fired — and clear the field. -/
def abortStream : Option Nat → Option Nat × Bool
  | some _ => (none, true)
  | none => (none, false)

/-- Source `LLMClient.isStreaming`: a cancellation handle is currently held. -/
def isStreamingOf (ctr : Option Nat) : Bool := ctr.isSome

/-- Progress events carry no terminal settlement. -/
def isProgressEvt : XhrEvt → Bool
  | .progress _ => true
  | _ => false

/-- The appended chunks of a run of progress events. -/
def chunksOf (evts : List XhrEvt) : List (List Char) :=
  evts.filterMap (fun e => match e with | .progress a => some a | _ => none)

/-- A run of progress events is the progress image of its chunks. -/
theorem progress_run_eq (evts : List XhrEvt) (h : evts.all isProgressEvt = true) :
    evts = (chunksOf evts).map XhrEvt.progress := by
  induction evts with
  | nil => rfl
  | cons e r ih =>
    rcases List.all_eq_true.mp h e (by simp) with he
    cases e with
    | progress a =>
      have hr : r.all isProgressEvt = true :=
        List.all_eq_true.mpr (fun x hx => List.all_eq_true.mp h x (by simp [hx]))
      simp only [chunksOf, List.filterMap_cons, List.map_cons]
      exact congrArg _ (by simpa [chunksOf] using ih hr)
    | load s => simp [isProgressEvt] at he
    | netErr => simp [isProgressEvt] at he
    | timeoutE => simp [isProgressEvt] at he
    | abortSig => simp [isProgressEvt] at he

/-- C4. If the abort signal fires while the stream is still active (only
progress events so far), the caller sees `onStart` and the in-order chunks
delivered before the abort, and never `onComplete` or `onError` — whatever
events the host would have delivered afterwards — and the `streamChat`
promise resolves cleanly.  Moreover `abortStream` is idempotent and a no-op
when no stream is active. -/
theorem C4_abort_suppression (extract : List Char → Option (List Char))
    (pre post : List XhrEvt) (h : pre.all isProgressEvt = true) :
    streamChatRun extract (pre ++ XhrEvt.abortSig :: post) =
      (UserCb.start :: (allDeltas extract (chunksOf pre)).map UserCb.chunk,
       Outcome.ok) ∧
    (∀ ctr : Option Nat, abortStream (abortStream ctr).1 = (none, false)) ∧
    abortStream none = (none, false) := by
  refine ⟨?_, ?_, rfl⟩
  · have hpre := progress_run_eq pre h
    have h0 : ({ lastLen := 0, fullText := [] } : StreamSt) =
        { lastLen := ([] : List Char).length, fullText := [] } := rfl
    have key : transportGo extract { lastLen := 0, fullText := [] } []
        (pre ++ XhrEvt.abortSig :: post) =
        ((allDeltas extract (chunksOf pre)).map SseCb.chunk, TRes.rejectedAbort) := by
      conv_lhs => rw [hpre, h0]
      rw [transportGo_progress extract (chunksOf pre) [] [] (XhrEvt.abortSig :: post)]
      simp [transportGo]
    unfold streamChatRun
    rw [key]
    simp [toUserCb, List.map_map, Function.comp_def]
  · intro ctr
    cases ctr <;> rfl

/-- Witness for C4: one progress event before the abort, a (discarded) 2xx
load after it; the caller sees only the start and the one chunk, and the
abort field operations behave as stated. -/
theorem C4_abort_suppression_witness :
    (([XhrEvt.progress ("data: J1\n".data)].all isProgressEvt) = true) ∧
    streamChatRun sampleExtract
        ([XhrEvt.progress ("data: J1\n".data)] ++ XhrEvt.abortSig :: [XhrEvt.load 200]) =
      ([UserCb.start, UserCb.chunk ("Hel".data)], Outcome.ok) ∧
    abortStream (abortStream (some 5)).1 = (none, false) ∧
    abortStream none = (none, false) := by
  refine ⟨by decide, ?_, ?_, ?_⟩
  · rw [(C4_abort_suppression sampleExtract [XhrEvt.progress ("data: J1\n".data)]
      [XhrEvt.load 200] (by decide)).1]
    decide
  · exact (C4_abort_suppression sampleExtract [] [] (by decide)).2.1 (some 5)
  · exact (C4_abort_suppression sampleExtract [] [] (by decide)).2.2

/-! ## At-most-one-stream bookkeeping (`streamChat` and the
`abortController` field) -/

/-- Client-level streaming state: the single `abortController` field, a
fresh-handle counter, and the history of started, aborted and finished
streams. -/
structure ClientSt where
  ctr : Option Nat
  nextH : Nat
  started : List Nat
  aborted : List Nat
  finished : List Nat
  deriving DecidableEq, Repr

/-- Client-level events: a `streamChat` call starting a stream, an
`abortStream` call, and a stream's transport finishing (the `finally`
block clearing the field). -/
inductive ClEvt
  | startS
  | abortS
  | finishS (h : Nat)
  deriving DecidableEq, Repr

/-- One step of the client state machine, as implemented: `streamChat`
overwrites `abortController` with a fresh controller (it does not abort a
previous one); `abortStream` aborts and clears the held controller if any;
a finishing stream records itself and the `finally` block clears the
field. -/
def clStep (s : ClientSt) : ClEvt → ClientSt
  | .startS =>
    { s with ctr := some s.nextH, nextH := s.nextH + 1, started := s.started ++ [s.nextH] }
  | .abortS =>
    match s.ctr with
    | some h => { s with ctr := none, aborted := s.aborted ++ [h] }
    | none => s
  | .finishS h => { s with ctr := none, finished := s.finished ++ [h] }

/-- The idle client. -/
def clInit : ClientSt := { ctr := none, nextH := 0, started := [], aborted := [], finished := [] }

/-- Run the client state machine over an event list. -/
def clRun (evts : List ClEvt) : ClientSt := evts.foldl clStep clInit

/-- A started stream is in flight while it is neither aborted nor finished. -/
def inFlight (s : ClientSt) (h : Nat) : Prop :=
  h ∈ s.started ∧ h ∉ s.aborted ∧ h ∉ s.finished

/-- C5 counterexample. Calling `streamChat` twice in a row does not cancel
the first stream: after the trace `[startS, startS]` nothing has been
aborted and both streams are still in flight, so the prior stream was not
first cancelled and two streams of the same client are live at once. -/
theorem C5_no_cancel_counterexample :
    (clRun [ClEvt.startS, ClEvt.startS]).aborted = [] ∧
    inFlight (clRun [ClEvt.startS, ClEvt.startS]) 0 ∧
    inFlight (clRun [ClEvt.startS, ClEvt.startS]) 1 := by
  refine ⟨rfl, ?_, ?_⟩ <;> exact ⟨by decide, by decide, by decide⟩

/-- C5 amended. A `streamChat` call never cancels anything: it merely
overwrites the single stored cancellation handle with a fresh one (so
`isStreaming` becomes true and only that latest handle can still be
aborted — a following `abortStream` aborts the new stream only, leaving
every earlier stream untouched). -/
theorem C5_overwrite_amended (evts : List ClEvt) :
    (clRun (evts ++ [ClEvt.startS])).aborted = (clRun evts).aborted ∧
    (clRun (evts ++ [ClEvt.startS])).ctr = some (clRun evts).nextH ∧
    (clRun (evts ++ [ClEvt.startS])).started =
      (clRun evts).started ++ [(clRun evts).nextH] ∧
    (clRun (evts ++ [ClEvt.startS])).finished = (clRun evts).finished ∧
    isStreamingOf (clRun (evts ++ [ClEvt.startS])).ctr = true ∧
    (clRun (evts ++ [ClEvt.startS, ClEvt.abortS])).aborted =
      (clRun evts).aborted ++ [(clRun evts).nextH] := by
  simp [clRun, List.foldl_append, clStep, isStreamingOf, Option.isSome]

/-! ## Configuration save (`ConfigManager.save` / `clampTemperature`) -/

/-- The configuration fields relevant to `save` (temperature is a JS number,
embedded as a rational). -/
structure PluginConfigM where
  apiKey : String
  apiEndpoint : String
  model : String
  temperature : Rat
  deriving DecidableEq, Repr

/-- A `Partial<PluginConfig>` update passed to `save`. -/
structure ConfigUpdate where
  apiKey : Option String := none
  apiEndpoint : Option String := none
  model : Option String := none
  temperature : Option Rat := none
  deriving DecidableEq, Repr

/-- A preference value written by `setPref`. -/
inductive PrefVal
  | s (v : String)
  | n (v : Rat)
  deriving DecidableEq, Repr

/-- Source `ConfigManager.clampTemperature`: clamp into [0, 2]. -/
def clampTemperature (t : Rat) : Rat := max 0 (min 2 t)

/-- The `setPref` calls performed by the `Object.entries(config).forEach`
loop of `save`, on the update whose temperature has already been clamped in
place. -/
def updWrites (u : ConfigUpdate) : List (String × PrefVal) :=
  (match u.apiKey with | some v => [("apiKey", PrefVal.s v)] | none => []) ++
  (match u.apiEndpoint with | some v => [("apiEndpoint", PrefVal.s v)] | none => []) ++
  (match u.model with | some v => [("model", PrefVal.s v)] | none => []) ++
  (match u.temperature with
   | some t => [("temperature", PrefVal.n (clampTemperature t))]
   | none => [])

/-- The in-memory merge `this.config = { ...this.config, ...config }`, after
the in-place clamping of the provided temperature. -/
def applyUpd (c : PluginConfigM) (u : ConfigUpdate) : PluginConfigM :=
  { apiKey := u.apiKey.getD c.apiKey,
    apiEndpoint := u.apiEndpoint.getD c.apiEndpoint,
    model := u.model.getD c.model,
    temperature := (u.temperature.map clampTemperature).getD c.temperature }

/-- Source `ConfigManager.save`, parameterised by the host URL validator
(`new URL` + http/https protocol check): if an endpoint is provided and
fails validation, throw `Invalid API Endpoint URL format` before any
preference write; otherwise clamp the provided temperature, merge, and
perform the preference writes.  The first component is the list of
`setPref` writes actually performed. -/
def save (validUrl : String → Bool) (c : PluginConfigM) (u : ConfigUpdate) :
    List (String × PrefVal) × Except String PluginConfigM :=
  match u.apiEndpoint with
  | some e =>
    if validUrl e then (updWrites u, .ok (applyUpd c u))
    else ([], .error "Invalid API Endpoint URL format")
  | none => (updWrites u, .ok (applyUpd c u))

/-- C7. `save` clamps a provided temperature into [0, 2] before storing it —
in particular 5 is stored as 2 and −1 as 0, both in the written preference
and in the merged configuration — and if a provided endpoint fails the
URL validation it rejects with `Invalid API Endpoint URL format` having
performed no preference write at all. -/
theorem C7_save_validation (validUrl : String → Bool) (c : PluginConfigM)
    (u : ConfigUpdate) (e : String) (t : Rat) :
    (u.apiEndpoint = some e → validUrl e = false →
      save validUrl c u = ([], Except.error "Invalid API Endpoint URL format")) ∧
    ((u.apiEndpoint = none ∨ (u.apiEndpoint = some e ∧ validUrl e = true)) →
      u.temperature = some t →
      ("temperature", PrefVal.n (clampTemperature t)) ∈ (save validUrl c u).1 ∧
      (save validUrl c u).2 = Except.ok (applyUpd c u) ∧
      (applyUpd c u).temperature = clampTemperature t) ∧
    clampTemperature 5 = 2 ∧ clampTemperature (-1) = 0 := by
  refine ⟨?_, ?_, by norm_num [clampTemperature], by norm_num [clampTemperature]⟩
  · intro he hv
    simp [save, he, hv]
  · intro hok ht
    have hmem : ("temperature", PrefVal.n (clampTemperature t)) ∈ updWrites u := by
      simp [updWrites, ht]
    rcases hok with hnone | ⟨hsome, hv⟩
    · exact ⟨by simpa [save, hnone] using hmem, by simp [save, hnone],
        by simp [applyUpd, ht]⟩
    · exact ⟨by simpa [save, hsome, hv] using hmem, by simp [save, hsome, hv],
        by simp [applyUpd, ht]⟩

/-- A URL validator rejecting everything, for the witness. -/
def alwaysInvalid : String → Bool := fun _ => false

/-- A URL validator accepting everything, for the witness. -/
def alwaysValid : String → Bool := fun _ => true

/-- A base configuration for the witness. -/
def cfg0 : PluginConfigM :=
  { apiKey := "", apiEndpoint := "https://api.openai.com/v1", model := "gpt-3.5-turbo",
    temperature := 7/10 }

/-- An update carrying a bad endpoint and an out-of-range temperature. -/
def updBad : ConfigUpdate := { apiEndpoint := some "not a url", temperature := some 5 }

/-- An update carrying only an out-of-range temperature. -/
def updHot : ConfigUpdate := { temperature := some 5 }

/-- Witness for C7: the bad-endpoint update is rejected with no writes; the
temperature-only update stores the clamped value 2. -/
theorem C7_save_validation_witness :
    save alwaysInvalid cfg0 updBad = ([], Except.error "Invalid API Endpoint URL format") ∧
    ("temperature", PrefVal.n 2) ∈ (save alwaysValid cfg0 updHot).1 ∧
    (applyUpd cfg0 updHot).temperature = 2 ∧
    clampTemperature 5 = 2 ∧ clampTemperature (-1) = 0 := by
  have h1 := (C7_save_validation alwaysInvalid cfg0 updBad "not a url" 5).1 rfl rfl
  have h2 := (C7_save_validation alwaysValid cfg0 updHot "x" 5).2.1 (Or.inl rfl) rfl
  have hc : clampTemperature 5 = 2 := (C7_save_validation alwaysValid cfg0 updHot "x" 5).2.2.1
  have hc' : clampTemperature (-1) = 0 := (C7_save_validation alwaysValid cfg0 updHot "x" 5).2.2.2
  refine ⟨h1, ?_, ?_, hc, hc'⟩
  · simpa [hc] using h2.1
  · simpa [hc] using h2.2.2

/-! ## Markdown renderer (`MarkdownRenderer.ts`)

Each `String.prototype.replace` with a global regex is embedded as a
left-to-right scan (`scanRepl`) with a match-attempt function mirroring the
regex at the current position; the fuel argument is the input length, which
the one-character-or-more consumption of every attempt makes sufficient. -/

/-- JavaScript `\w`. -/
def wordChar (c : Char) : Bool := c.isAlpha || c.isDigit || c = '_'

/-- Characters matched by JavaScript `.` (anything but line terminators). -/
def dotOk (c : Char) : Bool :=
  !(c = '\n' || c = Char.ofNat 13 || c = Char.ofNat 8232 || c = Char.ofNat 8233)

/-- Left-to-right global replace: at each position try the match attempt;
on a match emit the replacement and continue after the consumed text, else
keep the character and move on. -/
def scanRepl (attempt : List Char → Option (List Char × List Char)) :
    Nat → List Char → List Char
  | 0, l => l
  | _ + 1, [] => []
  | fuel + 1, c :: r =>
    match attempt (c :: r) with
    | some (rep, rest) => rep ++ scanRepl attempt fuel rest
    | none => c :: scanRepl attempt fuel r

/-- The triple-backtick fence. -/
def fence : List Char := [bq, bq, bq]

/-- Split at the first occurrence of the closing fence (the lazy
`[\s\S]*?` of the code-block regex). -/
def splitAtTicks : List Char → Option (List Char × List Char)
  | [] => none
  | c :: r =>
    if fence.isPrefixOf (c :: r) then some ([], (c :: r).drop 3)
    else
      match splitAtTicks r with
      | some (a, b) => some (c :: a, b)
      | none => none

/-- The replacement template of `processCodeBlocks` (a multi-line template
literal with its source indentation). -/
def codeTemplate (lang code : List Char) : List Char :=
  "<div class=\"ai-code-block\" data-language=\"".data ++ lang ++
  "\">\n        <div class=\"ai-code-header\">\n          <span class=\"ai-code-language\">".data ++
  lang ++
  "</span>\n          <button class=\"ai-code-copy\" title=\"复制代码\">复制</button>\n        </div>\n        <pre><code class=\"language-".data ++
  lang ++ "\">".data ++ code ++ "</code></pre>\n      </div>".data

/-- A match of `/```(\w*)\n([\s\S]*?)```/` at the current position: the
fence, a greedy word-character language tag, a newline, and the lazily
shortest code until a closing fence; the tag defaults to `text` and the
code is trimmed. -/
def codeBlockAttempt (l : List Char) : Option (List Char × List Char) :=
  if fence.isPrefixOf l then
    let after := l.drop 3
    let langRaw := after.takeWhile wordChar
    match after.dropWhile wordChar with
    | c :: rest2 =>
      if c = '\n' then
        match splitAtTicks rest2 with
        | some (code, rest3) =>
          some (codeTemplate (if langRaw = [] then "text".data else langRaw)
            (jsTrim code), rest3)
        | none => none
      else none
    | [] => none
  else none

/-- Source `processCodeBlocks`. -/
def processCodeBlocksL (l : List Char) : List Char := scanRepl codeBlockAttempt l.length l

/-- A match of the inline-code regex `` /`([^`\n]+)`/ `` at the current
position. -/
def inlineCodeAttempt (l : List Char) : Option (List Char × List Char) :=
  match l with
  | c :: r =>
    if c = bq then
      let content := r.takeWhile (fun x => !(x = bq || x = '\n'))
      let rest := r.dropWhile (fun x => !(x = bq || x = '\n'))
      if content = [] then none
      else
        match rest with
        | d :: r2 =>
          if d = bq then
            some ("<code class=\"ai-inline-code\">".data ++ content ++ "</code>".data, r2)
          else none
        | [] => none
    else none
  | [] => none

/-- Source `processInlineCode`. -/
def processInlineCodeL (l : List Char) : List Char := scanRepl inlineCodeAttempt l.length l

/-- A trimmed line counts as a table row when it starts and ends with `|`. -/
def isTableLine (t : List Char) : Bool :=
  t.head? == some '|' && t.getLast? == some '|'

/-- The separator character class `[\s\-:|]`. -/
def sepClassChar (c : Char) : Bool := jsWs c || c = '-' || c = ':' || c = '|'

/-- The separator-row regex `/^\|[\s\-:|]+\|$/`. -/
def isSepLine (r : List Char) : Bool :=
  decide (3 ≤ r.length) && r.head? == some '|' && r.getLast? == some '|' &&
  ((r.drop 1).dropLast.all sepClassChar)

/-- Source `parseRow`: split on `|`, drop the first and last (empty) fields, trim
each cell. -/
def parseRow (row : List Char) : List (List Char) :=
  ((splitOnCh '|' row).drop 1).dropLast.map jsTrim

/-- Source `renderTable`. -/
def renderTable (rows : List (List Char)) : List Char :=
  if rows.length < 2 then joinNl rows
  else
    let hasHeader := decide (1 < rows.length) && isSepLine (rows.getD 1 [])
    let headerPart :=
      if hasHeader then
        "<thead><tr>".data ++
          (parseRow (rows.headD [])).flatMap
            (fun c => "<th>".data ++ c ++ "</th>".data) ++
          "</tr></thead>".data
      else []
    let body := if hasHeader then rows.drop 2 else rows
    "<table class=\"ai-table\">".data ++ headerPart ++ "<tbody>".data ++
      body.flatMap (fun row =>
        if isSepLine row then []
        else
          "<tr>".data ++
            (parseRow row).flatMap (fun c => "<td>".data ++ c ++ "</td>".data) ++
          "</tr>".data) ++
      "</tbody></table>".data

/-- The line loop of `processTables`: collect contiguous trimmed table rows
and flush them through `renderTable`. -/
def tablesGo : List (List Char) → Bool → List (List Char) → List (List Char)
  | [], inT, rows => if inT && decide (0 < rows.length) then [renderTable rows] else []
  | ln :: ls, inT, rows =>
    let t := jsTrim ln
    if isTableLine t then tablesGo ls true ((if inT then rows else []) ++ [t])
    else if inT then renderTable rows :: ln :: tablesGo ls false []
    else ln :: tablesGo ls false []

/-- Source `processTables`. -/
def processTablesL (l : List Char) : List Char :=
  joinNl (tablesGo (splitOnCh '\n' l) false [])

/-- The `\s+(.+)$` tail shared by the heading and list-item regexes: a
non-empty greedy whitespace run followed by a non-empty line remainder
(with the greedy run backtracking one character when the remainder is all
whitespace). -/
def splitWsPlus (r : List Char) : Option (List Char) :=
  let k := (r.takeWhile jsWs).length
  if k = 0 then none
  else
    let rest := r.drop k
    if rest = [] then
      match r.getLast? with
      | some c => if 2 ≤ k && dotOk c then some [c] else none
      | none => none
    else if rest.all dotOk then some rest else none

/-- A match of the unordered-item regex `/^(\s*)[-*+]\s+(.+)$/`, returning
the item text. -/
def ulMatch (ln : List Char) : Option (List Char) :=
  match ln.dropWhile jsWs with
  | c :: r => if c = '-' || c = '*' || c = '+' then splitWsPlus r else none
  | [] => none

/-- A match of the ordered-item regex `/^(\s*)\d+\.\s+(.+)$/`. -/
def olMatch (ln : List Char) : Option (List Char) :=
  let rest := ln.dropWhile jsWs
  let ds := rest.takeWhile Char.isDigit
  if ds = [] then none
  else
    match rest.drop ds.length with
    | c :: r => if c = '.' then splitWsPlus r else none
    | [] => none

/-- Source `renderList`. -/
def renderListHtml (items : List (List Char)) (isOl : Bool) : List Char :=
  let tag := if isOl then "ol".data else "ul".data
  let cls := if isOl then "ai-ordered-list".data else "ai-unordered-list".data
  "<".data ++ tag ++ " class=\"".data ++ cls ++ "\">".data ++
    items.flatMap (fun it => "<li>".data ++ it ++ "</li>".data) ++
  "</".data ++ tag ++ ">".data

/-- The `inList`/`listType` state of the list loop. -/
inductive ListRun
  | noList
  | inUl
  | inOl
  deriving DecidableEq, Repr

/-- The line loop of `processLists`: a run is flushed when the marker style
changes or ends; mixed adjacent styles give two separate blocks. -/
def listsGo : List (List Char) → ListRun → List (List Char) → List (List Char)
  | [], st, items =>
    match st with
    | .noList => []
    | .inUl => [renderListHtml items false]
    | .inOl => [renderListHtml items true]
  | ln :: ls, st, items =>
    match ulMatch ln with
    | some it =>
      match st with
      | .inUl => listsGo ls .inUl (items ++ [it])
      | .inOl => renderListHtml items true :: listsGo ls .inUl [it]
      | .noList => listsGo ls .inUl [it]
    | none =>
      match olMatch ln with
      | some it =>
        match st with
        | .inOl => listsGo ls .inOl (items ++ [it])
        | .inUl => renderListHtml items false :: listsGo ls .inOl [it]
        | .noList => listsGo ls .inOl [it]
      | none =>
        match st with
        | .noList => ln :: listsGo ls .noList []
        | .inUl => renderListHtml items false :: ln :: listsGo ls .noList []
        | .inOl => renderListHtml items true :: ln :: listsGo ls .noList []

/-- Source `processLists`. -/
def processListsL (l : List Char) : List Char :=
  joinNl (listsGo (splitOnCh '\n' l) .noList [])

/-- A match of the blockquote line regex `/^>\s*(.*)$/`. -/
def quoteMatch (ln : List Char) : Option (List Char) :=
  match ln with
  | c :: r =>
    if c = '>' then
      let content := r.dropWhile jsWs
      if content.all dotOk then some content else none
    else none
  | [] => none

/-- One rendered blockquote block. -/
def quoteHtml (qs : List (List Char)) : List Char :=
  "<blockquote class=\"ai-blockquote\">".data ++
    List.intercalate ("<br>".data) qs ++ "</blockquote>".data

/-- The line loop of `processBlockquotes`. -/
def quotesGo : List (List Char) → Bool → List (List Char) → List (List Char)
  | [], inQ, qs => if inQ then [quoteHtml qs] else []
  | ln :: ls, inQ, qs =>
    match quoteMatch ln with
    | some c => quotesGo ls true ((if inQ then qs else []) ++ [c])
    | none =>
      if inQ then quoteHtml qs :: ln :: quotesGo ls false []
      else ln :: quotesGo ls false []

/-- Source `processBlockquotes`. -/
def processBlockquotesL (l : List Char) : List Char :=
  joinNl (quotesGo (splitOnCh '\n' l) false [])

/-- One line under the heading regex `/^(#{1,6})\s+(.+)$/gm`. -/
def headingLine (ln : List Char) : List Char :=
  let n := (ln.takeWhile (fun c => c = '#')).length
  if 1 ≤ n && n ≤ 6 then
    match splitWsPlus (ln.drop n) with
    | some content =>
      "<h".data ++ (toString n).data ++ " class=\"ai-heading ai-heading-".data ++
        (toString n).data ++ "\">".data ++ content ++ "</h".data ++
        (toString n).data ++ ">".data
    | none => ln
  else ln

/-- Source `processHeadings`. -/
def processHeadingsL (l : List Char) : List Char :=
  joinNl ((splitOnCh '\n' l).map headingLine)

/-- The horizontal-rule character class `[-*_]`. -/
def hrChar (c : Char) : Bool := c = '-' || c = '*' || c = '_'

/-- One line under the rule regex `/^([-*_]){3,}$/gm`. -/
def hrLine (ln : List Char) : List Char :=
  if 3 ≤ ln.length && ln.all hrChar then "<hr class=\"ai-hr\">".data else ln

/-- Source `processHorizontalRules`. -/
def processHorizontalRulesL (l : List Char) : List Char :=
  joinNl ((splitOnCh '\n' l).map hrLine)

/-- The lazy search for the closing delimiter of `(.+?)`: stop at the first
occurrence of the closing pattern, failing on a line terminator. -/
def findLazyClose (dClose : List Char) : List Char → Option (List Char × List Char)
  | [] => none
  | c :: r =>
    if dClose.isPrefixOf (c :: r) then some ([], (c :: r).drop dClose.length)
    else if dotOk c then
      match findLazyClose dClose r with
      | some (a, b) => some (c :: a, b)
      | none => none
    else none

/-- A match of an inline-formatting regex `open(.+?)close` at the current
position. -/
def delimAttempt (dOpen dClose tagO tagC : List Char) (l : List Char) :
    Option (List Char × List Char) :=
  if dOpen.isPrefixOf l then
    match l.drop dOpen.length with
    | c :: r =>
      if dotOk c then
        match findLazyClose dClose r with
        | some (content, rest) => some (tagO ++ c :: content ++ tagC, rest)
        | none => none
      else none
    | [] => none
  else none

/-- Source `processInlineFormatting`: bold before italic, then strikethrough. -/
def processInlineFormattingL (l : List Char) : List Char :=
  let t1 := scanRepl (delimAttempt ("**".data) ("**".data) ("<strong>".data)
    ("</strong>".data)) l.length l
  let t2 := scanRepl (delimAttempt ("__".data) ("__".data) ("<strong>".data)
    ("</strong>".data)) t1.length t1
  let t3 := scanRepl (delimAttempt ("*".data) ("*".data) ("<em>".data)
    ("</em>".data)) t2.length t2
  let t4 := scanRepl (delimAttempt ("_".data) ("_".data) ("<em>".data)
    ("</em>".data)) t3.length t3
  scanRepl (delimAttempt ("~~".data) ("~~".data) ("<del>".data)
    ("</del>".data)) t4.length t4

/-- The anchor emitted for both link forms. -/
def linkWrap (url txt : List Char) : List Char :=
  "<a href=\"".data ++ url ++
  "\" class=\"ai-link\" target=\"_blank\" rel=\"noopener noreferrer\">".data ++
  txt ++ "</a>".data

/-- A match of the explicit-link regex `/\[([^\]]+)\]\(([^)]+)\)/`. -/
def linkAttempt (l : List Char) : Option (List Char × List Char) :=
  match l with
  | c :: r =>
    if c = '[' then
      let txt := r.takeWhile (fun x => !(x = ']'))
      if txt = [] then none
      else
        match r.dropWhile (fun x => !(x = ']')) with
        | _ :: r2 =>
          match r2 with
          | e :: r3 =>
            if e = '(' then
              let url := r3.takeWhile (fun x => !(x = ')'))
              if url = [] then none
              else
                match r3.dropWhile (fun x => !(x = ')')) with
                | _ :: r4 => some (linkWrap url txt, r4)
                | [] => none
            else none
          | [] => none
        | [] => none
    else none
  | [] => none

/-- A match of the auto-link regex `/(https?:\/\/[^\s<]+)/`. -/
def autoLinkAttempt (l : List Char) : Option (List Char × List Char) :=
  let k : Option Nat :=
    if ("https://".data).isPrefixOf l then some 8
    else if ("http://".data).isPrefixOf l then some 7
    else none
  match k with
  | some n =>
    let run := (l.drop n).takeWhile (fun c => !(jsWs c || c = '<'))
    if run = [] then none
    else
      let url := l.take n ++ run
      some (linkWrap url url, (l.drop n).drop run.length)
  | none => none

/-- Source `processLinks`: explicit links, then bare URLs. -/
def processLinksL (l : List Char) : List Char :=
  let t1 := scanRepl linkAttempt l.length l
  scanRepl autoLinkAttempt t1.length t1

/-- The split on `/\n\n+/` of `processParagraphs` (greedy runs of two or
more newlines separate blocks). -/
def splitBlocksGo : Nat → List Char → List Char → List (List Char)
  | 0, rem, cur => [cur.reverse ++ rem]
  | _ + 1, [], cur => [cur.reverse]
  | fuel + 1, c :: r, cur =>
    if c = '\n' then
      match r with
      | d :: r2 =>
        if d = '\n' then
          cur.reverse :: splitBlocksGo fuel (r2.dropWhile (fun x => x = '\n')) []
        else splitBlocksGo fuel r (c :: cur)
      | [] => splitBlocksGo fuel r (c :: cur)
    else splitBlocksGo fuel r (c :: cur)

/-- The expanded alternatives of `/<(h[1-6]|ul|ol|table|blockquote|div|pre|hr)/i`. -/
def blockTagPats : List (List Char) :=
  ["h1", "h2", "h3", "h4", "h5", "h6", "ul", "ol", "table", "blockquote",
   "div", "pre", "hr"].map String.data

/-- A case-insensitive block-tag match at the current position. -/
def htmlTagHere (l : List Char) : Bool :=
  match l with
  | c :: r => c = '<' && blockTagPats.any (fun p => p.isPrefixOf (r.map Char.toLower))
  | [] => false

/-- The `.test` of the block-tag regex: a match anywhere in the text. -/
def containsBlockTag : List Char → Bool
  | [] => false
  | c :: r => htmlTagHere (c :: r) || containsBlockTag r

/-- One block of `processParagraphs`: empty blocks vanish, blocks already
starting with an HTML element (other than `<code`/`<a`) or containing a
block tag pass through, the rest are wrapped in a paragraph with newlines
turned into `<br>`. -/
def paraBlock (b : List Char) : List Char :=
  let t := jsTrim b
  if t = [] then []
  else if t.head? == some '<' && !(("<code".data).isPrefixOf t) &&
      !(("<a".data).isPrefixOf t) then t
  else if containsBlockTag t then t
  else
    "<p class=\"ai-paragraph\">".data ++
      t.flatMap (fun c => if c = '\n' then "<br>".data else [c]) ++ "</p>".data

/-- Source `processParagraphs`. -/
def processParagraphsL (l : List Char) : List Char :=
  joinNl ((splitBlocksGo l.length l []).map paraBlock)

/-- The five-character HTML escape map of `escapeHtml`. -/
def escChar (c : Char) : List Char :=
  if c = '&' then "&amp;".data
  else if c = '<' then "&lt;".data
  else if c = '>' then "&gt;".data
  else if c = dq then "&quot;".data
  else if c = apos then "&#039;".data
  else [c]

/-- Source `escapeHtml`, skipped when sanitisation is disabled. -/
def escapeHtmlL (sanitize : Bool) (l : List Char) : List Char :=
  if sanitize then l.flatMap escChar else l

/-- Source `MarkdownRenderOptions`, all enabled by default. -/
structure RenderOptions where
  enableCodeHighlight : Bool := true
  enableTables : Bool := true
  enableLinks : Bool := true
  sanitize : Bool := true
  deriving DecidableEq, Repr

/-- The options of the exported singleton renderer. -/
def defaultRenderOptions : RenderOptions := {}

/-- Source `MarkdownRenderer.render`: the fixed processing pipeline (the empty
string is returned unchanged by the falsy-input guard). -/
def renderL (opts : RenderOptions) (l : List Char) : List Char :=
  if l = [] then []
  else
    let h0 := escapeHtmlL opts.sanitize l
    let h1 := processCodeBlocksL h0
    let h2 := processInlineCodeL h1
    let h3 := if opts.enableTables then processTablesL h2 else h2
    let h4 := processListsL h3
    let h5 := processBlockquotesL h4
    let h6 := processHeadingsL h5
    let h7 := processHorizontalRulesL h6
    let h8 := processInlineFormattingL h7
    let h9 := if opts.enableLinks then processLinksL h8 else h8
    processParagraphsL h9

/-- Source `render` at the string boundary. -/
def render (opts : RenderOptions) (s : String) : String :=
  String.mk (renderL opts s.data)

/-- C9. Rendering `|A|B|\n|-|-|\n|1|2|` with the default (tables-enabled)
options produces a single table whose header row has exactly the cells `A`
and `B` and whose body is exactly one row with the cells `1` and `2`. -/
theorem C9_table_render :
    render defaultRenderOptions "|A|B|\n|-|-|\n|1|2|" =
      "<table class=\"ai-table\"><thead><tr><th>A</th><th>B</th></tr></thead><tbody><tr><td>1</td><td>2</td></tr></tbody></table>" := by
  decide

/-! ## Totality and pass-through of the renderer -/

/-- The ASCII letters together with the ampersand: a sample alphabet of
text with no markup significance (`Char.isAlpha` covers exactly these
letters). -/
def inputOkList : List Char :=
  "abcdefghijklmnopqrstuvwxyzABCDEFGHIJKLMNOPQRSTUVWXYZ&".data

/-- A character of the markup-free input alphabet. -/
def inputOk (c : Char) : Bool := inputOkList.contains c

/-- The closure of the input alphabet under HTML escaping (the escape of
`&` introduces `;`). -/
def plainList : List Char :=
  "abcdefghijklmnopqrstuvwxyzABCDEFGHIJKLMNOPQRSTUVWXYZ&;".data

/-- A character that no stage of the pipeline reacts to. -/
def plainChar (c : Char) : Bool := plainList.contains c

/-- Every character of the plain alphabet triggers none of the pipeline's
character classes. -/
theorem plain_facts : ∀ c ∈ plainList,
    jsWs c = false ∧ dotOk c = true ∧ c.isDigit = false ∧ hrChar c = false ∧
    c ≠ '\n' ∧ c ≠ '|' ∧ c ≠ '#' ∧ c ≠ '>' ∧ c ≠ '[' ∧ c ≠ '<' ∧ c ≠ bq ∧
    c ≠ '-' ∧ c ≠ '*' ∧ c ≠ '+' ∧ c ≠ '_' ∧ c ≠ '~' ∧ c ≠ ':' ∧ c ≠ dq ∧
    c ≠ apos := by
  decide

/-- Membership form of `plainChar`. -/
theorem plainChar_mem {c : Char} (h : plainChar c = true) : c ∈ plainList := by
  simpa [plainChar] using h

/-- Membership form of `inputOk`. -/
theorem inputOk_mem {c : Char} (h : inputOk c = true) : c ∈ inputOkList := by
  simpa [inputOk] using h

/-- Bundled character facts for a plain character. -/
theorem plain_spec {c : Char} (h : plainChar c = true) :
    jsWs c = false ∧ dotOk c = true ∧ c.isDigit = false ∧ hrChar c = false ∧
    c ≠ '\n' ∧ c ≠ '|' ∧ c ≠ '#' ∧ c ≠ '>' ∧ c ≠ '[' ∧ c ≠ '<' ∧ c ≠ bq ∧
    c ≠ '-' ∧ c ≠ '*' ∧ c ≠ '+' ∧ c ≠ '_' ∧ c ≠ '~' ∧ c ≠ ':' ∧ c ≠ dq ∧
    c ≠ apos :=
  plain_facts c (plainChar_mem h)

/-- Plain characters are not whitespace. -/
theorem plain_ws {c : Char} (h : plainChar c = true) : jsWs c = false := (plain_spec h).1

/-- Plain characters are matched by `.`. -/
theorem plain_dot {c : Char} (h : plainChar c = true) : dotOk c = true := (plain_spec h).2.1

/-- Plain characters are not digits. -/
theorem plain_digit {c : Char} (h : plainChar c = true) : c.isDigit = false :=
  (plain_spec h).2.2.1

/-- Plain characters are not rule characters. -/
theorem plain_hrc {c : Char} (h : plainChar c = true) : hrChar c = false :=
  (plain_spec h).2.2.2.1

/-- Plain characters are not newlines. -/
theorem plain_nl {c : Char} (h : plainChar c = true) : c ≠ '\n' := (plain_spec h).2.2.2.2.1

/-- Plain characters are not pipes. -/
theorem plain_pipe {c : Char} (h : plainChar c = true) : c ≠ '|' :=
  (plain_spec h).2.2.2.2.2.1

/-- Plain characters are not hashes. -/
theorem plain_hash {c : Char} (h : plainChar c = true) : c ≠ '#' :=
  (plain_spec h).2.2.2.2.2.2.1

/-- Plain characters are not `>`. -/
theorem plain_gt {c : Char} (h : plainChar c = true) : c ≠ '>' :=
  (plain_spec h).2.2.2.2.2.2.2.1

/-- Plain characters are not `[`. -/
theorem plain_lb {c : Char} (h : plainChar c = true) : c ≠ '[' :=
  (plain_spec h).2.2.2.2.2.2.2.2.1

/-- Plain characters are not `<`. -/
theorem plain_lt {c : Char} (h : plainChar c = true) : c ≠ '<' :=
  (plain_spec h).2.2.2.2.2.2.2.2.2.1

/-- Plain characters are not backquotes. -/
theorem plain_bq {c : Char} (h : plainChar c = true) : c ≠ bq :=
  (plain_spec h).2.2.2.2.2.2.2.2.2.2.1

/-- Plain characters are not dashes. -/
theorem plain_dash {c : Char} (h : plainChar c = true) : c ≠ '-' :=
  (plain_spec h).2.2.2.2.2.2.2.2.2.2.2.1

/-- Plain characters are not asterisks. -/
theorem plain_star {c : Char} (h : plainChar c = true) : c ≠ '*' :=
  (plain_spec h).2.2.2.2.2.2.2.2.2.2.2.2.1

/-- Plain characters are not plus signs. -/
theorem plain_plus {c : Char} (h : plainChar c = true) : c ≠ '+' :=
  (plain_spec h).2.2.2.2.2.2.2.2.2.2.2.2.2.1

/-- Plain characters are not underscores. -/
theorem plain_us {c : Char} (h : plainChar c = true) : c ≠ '_' :=
  (plain_spec h).2.2.2.2.2.2.2.2.2.2.2.2.2.2.1

/-- Plain characters are not tildes. -/
theorem plain_tilde {c : Char} (h : plainChar c = true) : c ≠ '~' :=
  (plain_spec h).2.2.2.2.2.2.2.2.2.2.2.2.2.2.2.1

/-- Plain characters are not colons. -/
theorem plain_colon {c : Char} (h : plainChar c = true) : c ≠ ':' :=
  (plain_spec h).2.2.2.2.2.2.2.2.2.2.2.2.2.2.2.2.1

/-- Plain characters are not double quotes. -/
theorem plain_dq {c : Char} (h : plainChar c = true) : c ≠ dq :=
  (plain_spec h).2.2.2.2.2.2.2.2.2.2.2.2.2.2.2.2.2.1

/-- Plain characters are not apostrophes. -/
theorem plain_apos {c : Char} (h : plainChar c = true) : c ≠ apos :=
  (plain_spec h).2.2.2.2.2.2.2.2.2.2.2.2.2.2.2.2.2.2

/-- The input alphabet is contained in the plain alphabet. -/
theorem inputOk_plain {c : Char} (h : inputOk c = true) : plainChar c = true := by
  have hm := inputOk_mem h
  have hsub : ∀ x ∈ inputOkList, x ∈ plainList := by decide
  simpa [plainChar] using hsub c hm

/-- The escape of any character is non-empty. -/
theorem escChar_ne_nil (c : Char) : escChar c ≠ [] := by
  unfold escChar
  repeat' split
  all_goals simp

/-- Escaping a string over the input alphabet yields plain characters only. -/
theorem escape_all_plain (l : List Char) (h : ∀ c ∈ l, inputOk c = true) :
    ∀ c ∈ escapeHtmlL true l, plainChar c = true := by
  intro x hx
  have hx' : ∃ a ∈ l, x ∈ escChar a := by
    simpa [escapeHtmlL, List.mem_flatMap] using hx
  obtain ⟨a, ha, hxa⟩ := hx'
  by_cases hc : a = '&'
  · subst hc
    have hall : ∀ y ∈ ("&amp;" : String).data, plainChar y = true := by decide
    exact hall x (by simpa [escChar] using hxa)
  · have hplain : plainChar a = true := inputOk_plain (h a ha)
    have he : escChar a = [a] := by
      simp [escChar, hc, plain_lt hplain, plain_gt hplain, plain_dq hplain,
        plain_apos hplain]
    rw [he] at hxa
    simpa [List.mem_singleton.mp hxa] using hplain

/-- Escaping a non-empty string yields a non-empty string. -/
theorem escape_ne_nil (l : List Char) (h : l ≠ []) : escapeHtmlL true l ≠ [] := by
  cases l with
  | nil => exact absurd rfl h
  | cons c r =>
    simp only [escapeHtmlL, if_pos rfl, List.flatMap_cons]
    intro hcon
    exact escChar_ne_nil c (List.append_eq_nil.mp hcon).1

/-- A global replace whose attempt never fires on plain text is the
identity. -/
theorem scanRepl_id (attempt : List Char → Option (List Char × List Char))
    (hA : ∀ l', (∀ c ∈ l', plainChar c = true) → attempt l' = none) :
    ∀ (fuel : Nat) (l : List Char), (∀ c ∈ l, plainChar c = true) →
    scanRepl attempt fuel l = l := by
  intro fuel
  induction fuel with
  | zero => intro l _; rfl
  | succ n ih =>
    intro l h
    cases l with
    | nil => rfl
    | cons c r =>
      simp only [scanRepl, hA (c :: r) h]
      exact congrArg _ (ih r (fun x hx => h x (by simp [hx])))

/-- Characters of a matched prefix occur in the string. -/
theorem isPrefixOf_mem {pat l : List Char} (hp : pat.isPrefixOf l = true) :
    ∀ c ∈ pat, c ∈ l := by
  induction pat generalizing l with
  | nil => simp
  | cons a as ih =>
    cases l with
    | nil => simp [List.isPrefixOf] at hp
    | cons b bs =>
      simp only [List.isPrefixOf, Bool.and_eq_true, beq_iff_eq] at hp
      intro c hc
      rcases List.mem_cons.mp hc with rfl | hc
      · simp [hp.1]
      · exact List.mem_cons_of_mem _ (ih hp.2 c hc)

/-- The code-block regex never fires on plain text. -/
theorem codeBlockAttempt_plain (l : List Char) (h : ∀ c ∈ l, plainChar c = true) :
    codeBlockAttempt l = none := by
  cases hf : fence.isPrefixOf l with
  | false => simp [codeBlockAttempt, hf]
  | true =>
    have hmem : bq ∈ l := isPrefixOf_mem hf bq (by decide)
    exact absurd (h bq hmem) (by decide)

/-- The inline-code regex never fires on plain text. -/
theorem inlineCodeAttempt_plain (l : List Char) (h : ∀ c ∈ l, plainChar c = true) :
    inlineCodeAttempt l = none := by
  cases l with
  | nil => rfl
  | cons c r => simp [inlineCodeAttempt, plain_bq (h c (by simp))]

/-- An inline-formatting regex whose opening delimiter starts with a
non-plain character never fires on plain text. -/
theorem delimAttempt_plain (d : Char) (dOpen dClose tagO tagC : List Char)
    (hd : dOpen.head? = some d) (hdp : plainChar d = false)
    (l : List Char) (h : ∀ c ∈ l, plainChar c = true) :
    delimAttempt dOpen dClose tagO tagC l = none := by
  cases hf : dOpen.isPrefixOf l with
  | false => simp [delimAttempt, hf]
  | true =>
    have hdmem : d ∈ dOpen := by
      cases dOpen with
      | nil => simp at hd
      | cons a as =>
        simp only [List.head?_cons, Option.some.injEq] at hd
        simp [hd]
    have : d ∈ l := isPrefixOf_mem hf d hdmem
    rw [h d this] at hdp
    cases hdp

/-- The explicit-link regex never fires on plain text. -/
theorem linkAttempt_plain (l : List Char) (h : ∀ c ∈ l, plainChar c = true) :
    linkAttempt l = none := by
  cases l with
  | nil => rfl
  | cons c r => simp [linkAttempt, plain_lb (h c (by simp))]

/-- The auto-link regex never fires on plain text. -/
theorem autoLinkAttempt_plain (l : List Char) (h : ∀ c ∈ l, plainChar c = true) :
    autoLinkAttempt l = none := by
  have h1 : ("https://".data).isPrefixOf l = false := by
    cases hf : ("https://".data).isPrefixOf l with
    | false => rfl
    | true =>
      have : ':' ∈ l := isPrefixOf_mem hf ':' (by decide)
      exact absurd (h ':' this) (by decide)
  have h2 : ("http://".data).isPrefixOf l = false := by
    cases hf : ("http://".data).isPrefixOf l with
    | false => rfl
    | true =>
      have : ':' ∈ l := isPrefixOf_mem hf ':' (by decide)
      exact absurd (h ':' this) (by decide)
  simp [autoLinkAttempt, h1, h2]

/-- Splitting plain text on newlines yields a single line. -/
theorem splitOnCh_nl_plain (l : List Char) (h : ∀ c ∈ l, plainChar c = true) :
    splitOnCh '\n' l = [l] := by
  induction l with
  | nil => rfl
  | cons c r ih =>
    have hr := ih (fun x hx => h x (by simp [hx]))
    simp [splitOnCh, plain_nl (h c (by simp)), hr]

/-- Source `dropWhile jsWs` is the identity on plain text. -/
theorem dropWhile_ws_plain (l : List Char) (h : ∀ c ∈ l, plainChar c = true) :
    l.dropWhile jsWs = l := by
  cases l with
  | nil => rfl
  | cons c r => simp [List.dropWhile_cons, plain_ws (h c (by simp))]

/-- Source `trim` is the identity on plain text. -/
theorem jsTrim_plain (l : List Char) (h : ∀ c ∈ l, plainChar c = true) :
    jsTrim l = l := by
  unfold jsTrim
  rw [dropWhile_ws_plain l h,
    dropWhile_ws_plain l.reverse (fun c hc => h c (List.mem_reverse.mp hc)),
    List.reverse_reverse]

/-- A plain line is not a table row. -/
theorem isTableLine_plain (l : List Char) (h : ∀ c ∈ l, plainChar c = true) :
    isTableLine l = false := by
  cases l with
  | nil => rfl
  | cons c r => simp [isTableLine, plain_pipe (h c (by simp))]

/-- Source `processTables` is the identity on plain text. -/
theorem processTables_plain (l : List Char) (h : ∀ c ∈ l, plainChar c = true) :
    processTablesL l = l := by
  unfold processTablesL
  rw [splitOnCh_nl_plain l h]
  simp only [tablesGo, jsTrim_plain l h, isTableLine_plain l h, Bool.false_eq_true,
    if_false]
  rfl

/-- The unordered-item regex does not match a plain line. -/
theorem ulMatch_plain (l : List Char) (h : ∀ c ∈ l, plainChar c = true) :
    ulMatch l = none := by
  unfold ulMatch
  rw [dropWhile_ws_plain l h]
  cases l with
  | nil => rfl
  | cons c r =>
    have hc := h c (by simp)
    simp [plain_dash hc, plain_star hc, plain_plus hc]

/-- The ordered-item regex does not match a plain line. -/
theorem olMatch_plain (l : List Char) (h : ∀ c ∈ l, plainChar c = true) :
    olMatch l = none := by
  unfold olMatch
  rw [dropWhile_ws_plain l h]
  cases l with
  | nil => rfl
  | cons c r => simp [List.takeWhile_cons, plain_digit (h c (by simp))]

/-- Source `processLists` is the identity on plain text. -/
theorem processLists_plain (l : List Char) (h : ∀ c ∈ l, plainChar c = true) :
    processListsL l = l := by
  unfold processListsL
  rw [splitOnCh_nl_plain l h]
  simp only [listsGo, ulMatch_plain l h, olMatch_plain l h]
  rfl

/-- The blockquote regex does not match a plain line. -/
theorem quoteMatch_plain (l : List Char) (h : ∀ c ∈ l, plainChar c = true) :
    quoteMatch l = none := by
  cases l with
  | nil => rfl
  | cons c r => simp [quoteMatch, plain_gt (h c (by simp))]

/-- Source `processBlockquotes` is the identity on plain text. -/
theorem processBlockquotes_plain (l : List Char) (h : ∀ c ∈ l, plainChar c = true) :
    processBlockquotesL l = l := by
  unfold processBlockquotesL
  rw [splitOnCh_nl_plain l h]
  simp only [quotesGo, quoteMatch_plain l h, Bool.false_eq_true, if_false]
  rfl

/-- The heading regex leaves a plain line unchanged. -/
theorem headingLine_plain (l : List Char) (h : ∀ c ∈ l, plainChar c = true) :
    headingLine l = l := by
  cases l with
  | nil => rfl
  | cons c r => simp [headingLine, List.takeWhile_cons, plain_hash (h c (by simp))]

/-- Source `processHeadings` is the identity on plain text. -/
theorem processHeadings_plain (l : List Char) (h : ∀ c ∈ l, plainChar c = true) :
    processHeadingsL l = l := by
  unfold processHeadingsL
  rw [splitOnCh_nl_plain l h]
  simp [headingLine_plain l h, joinNl]

/-- The rule regex leaves a plain line unchanged. -/
theorem hrLine_plain (l : List Char) (h : ∀ c ∈ l, plainChar c = true) :
    hrLine l = l := by
  cases l with
  | nil => rfl
  | cons c r => simp [hrLine, List.all_cons, plain_hrc (h c (by simp))]

/-- Source `processHorizontalRules` is the identity on plain text. -/
theorem processHorizontalRules_plain (l : List Char) (h : ∀ c ∈ l, plainChar c = true) :
    processHorizontalRulesL l = l := by
  unfold processHorizontalRulesL
  rw [splitOnCh_nl_plain l h]
  simp [hrLine_plain l h, joinNl]

/-- Source `processInlineFormatting` is the identity on plain text. -/
theorem processInlineFormatting_plain (l : List Char)
    (h : ∀ c ∈ l, plainChar c = true) : processInlineFormattingL l = l := by
  unfold processInlineFormattingL
  dsimp only
  rw [scanRepl_id _ (delimAttempt_plain '*' ("**".data) ("**".data) ("<strong>".data)
      ("</strong>".data) (by decide) (by decide)) l.length l h,
    scanRepl_id _ (delimAttempt_plain '_' ("__".data) ("__".data) ("<strong>".data)
      ("</strong>".data) (by decide) (by decide)) l.length l h,
    scanRepl_id _ (delimAttempt_plain '*' ("*".data) ("*".data) ("<em>".data)
      ("</em>".data) (by decide) (by decide)) l.length l h,
    scanRepl_id _ (delimAttempt_plain '_' ("_".data) ("_".data) ("<em>".data)
      ("</em>".data) (by decide) (by decide)) l.length l h,
    scanRepl_id _ (delimAttempt_plain '~' ("~~".data) ("~~".data) ("<del>".data)
      ("</del>".data) (by decide) (by decide)) l.length l h]

/-- Source `processLinks` is the identity on plain text. -/
theorem processLinks_plain (l : List Char) (h : ∀ c ∈ l, plainChar c = true) :
    processLinksL l = l := by
  unfold processLinksL
  rw [scanRepl_id _ linkAttempt_plain _ l h, scanRepl_id _ autoLinkAttempt_plain _ l h]

/-- Source `processCodeBlocks` is the identity on plain text. -/
theorem processCodeBlocks_plain (l : List Char) (h : ∀ c ∈ l, plainChar c = true) :
    processCodeBlocksL l = l :=
  scanRepl_id _ codeBlockAttempt_plain _ l h

/-- Source `processInlineCode` is the identity on plain text. -/
theorem processInlineCode_plain (l : List Char) (h : ∀ c ∈ l, plainChar c = true) :
    processInlineCodeL l = l :=
  scanRepl_id _ inlineCodeAttempt_plain _ l h

/-- The block split of plain text (no newlines) is the single block. -/
theorem splitBlocksGo_plain (fuel : Nat) :
    ∀ (rem cur : List Char), (∀ c ∈ rem, plainChar c = true) →
    splitBlocksGo fuel rem cur = [cur.reverse ++ rem] := by
  induction fuel with
  | zero => intro rem cur _; rfl
  | succ n ih =>
    intro rem cur h
    cases rem with
    | nil => simp [splitBlocksGo]
    | cons c r =>
      simp only [splitBlocksGo, plain_nl (h c (by simp)), if_false]
      rw [ih r (c :: cur) (fun x hx => h x (by simp [hx]))]
      simp

/-- No block tag occurs in plain text. -/
theorem containsBlockTag_plain (l : List Char) (h : ∀ c ∈ l, plainChar c = true) :
    containsBlockTag l = false := by
  induction l with
  | nil => rfl
  | cons c r ih =>
    simp only [containsBlockTag, htmlTagHere, Bool.or_eq_false_iff]
    exact ⟨by simp [plain_lt (h c (by simp))],
      ih (fun x hx => h x (by simp [hx]))⟩

/-- The `<br>` substitution is the identity on plain text. -/
theorem flatMap_br_plain (l : List Char) (h : ∀ c ∈ l, plainChar c = true) :
    l.flatMap (fun c => if c = '\n' then "<br>".data else [c]) = l := by
  induction l with
  | nil => rfl
  | cons c r ih =>
    simp [plain_nl (h c (by simp)), ih (fun x hx => h x (by simp [hx]))]

/-- A non-empty plain block is wrapped in a paragraph. -/
theorem paraBlock_plain (b : List Char) (hb : b ≠ [])
    (h : ∀ c ∈ b, plainChar c = true) :
    paraBlock b = "<p class=\"ai-paragraph\">".data ++ b ++ "</p>".data := by
  unfold paraBlock
  rw [jsTrim_plain b h]
  rw [if_neg hb]
  have hhead : (b.head? == some '<') = false := by
    cases b with
    | nil => exact absurd rfl hb
    | cons c r => simp [plain_lt (h c (by simp))]
  rw [if_neg (by simp [hhead])]
  rw [if_neg (by simp [containsBlockTag_plain b h])]
  rw [flatMap_br_plain b h]

/-- Source `processParagraphs` wraps non-empty plain text in a paragraph. -/
theorem processParagraphs_plain (l : List Char) (hne : l ≠ [])
    (h : ∀ c ∈ l, plainChar c = true) :
    processParagraphsL l = "<p class=\"ai-paragraph\">".data ++ l ++ "</p>".data := by
  unfold processParagraphsL
  rw [splitBlocksGo_plain l.length l [] h]
  simp only [List.reverse_nil, List.nil_append, List.map_cons, List.map_nil]
  rw [paraBlock_plain l hne h]
  rfl

/-- C6. Renderer totality and pass-through: `render` is a total function of
the input string (the embedding returns a string on every input, so no
input is ever rejected), and text with no markup significance — any
non-empty string over letters and `&` — passes through every pipeline
stage unchanged except for HTML escaping and the final paragraph wrap. -/
theorem C6_render_passthrough (s : String) (h1 : s.data ≠ [])
    (h2 : ∀ c ∈ s.data, inputOk c = true) :
    render defaultRenderOptions s =
      "<p class=\"ai-paragraph\">" ++ String.mk (escapeHtmlL true s.data) ++ "</p>" := by
  have hep : ∀ c ∈ escapeHtmlL true s.data, plainChar c = true :=
    escape_all_plain s.data h2
  have hene : escapeHtmlL true s.data ≠ [] := escape_ne_nil s.data h1
  unfold render renderL defaultRenderOptions
  rw [if_neg h1]
  simp only [if_true]
  rw [processCodeBlocks_plain _ hep, processInlineCode_plain _ hep,
    processTables_plain _ hep, processLists_plain _ hep,
    processBlockquotes_plain _ hep, processHeadings_plain _ hep,
    processHorizontalRules_plain _ hep, processInlineFormatting_plain _ hep,
    processLinks_plain _ hep, processParagraphs_plain _ hene hep]
  rfl

/-- Witness for C6 at the concrete input `a&b`: non-empty, over the
markup-free alphabet, and rendered to the escaped paragraph. -/
theorem C6_render_passthrough_witness :
    ("a&b" : String).data ≠ [] ∧
    ("a&b" : String).data.all inputOk = true ∧
    render defaultRenderOptions "a&b" = "<p class=\"ai-paragraph\">a&amp;b</p>" := by
  refine ⟨by decide, by decide, ?_⟩
  rw [C6_render_passthrough "a&b" (by decide) (by decide)]
  decide
